import Mathlib

/-!
Verification of the team-rotator rotation engine.

The rotation engine of the repository (`src/lib/rotation.ts`,
`src/lib/holiday.ts`, and the orchestration around them) is embedded
shallowly below:

* a calendar date is its day number counted from 1970-01-01 (a Thursday),
  so `getDay d = (d + 4) % 7` mirrors JavaScript `Date.prototype.getDay`
  (0 = Sunday … 6 = Saturday);
* the holiday calendar fetched by `getHolidays` is passed in as an explicit
  list of `HolidayDto` records, exactly the shape the holiday API returns;
* the unbounded `while` loop of `findNextWorkingDay` is given an explicit
  fuel argument; `none` marks fuel exhaustion (a modelling artefact that the
  termination theorems rule out under the documented preconditions);
* thrown `Error`s become an explicit `RotationError` value carrying the
  same data that the source interpolates into its message strings;
* the persistence layer is represented by returning, in order, the list of
  assignment records the orchestrator hands to `updateTaskAssignment`.
-/

namespace Rotation

/-- Day-of-week of a day number counted from 1970-01-01 (a Thursday):
`0 = Sunday, …, 6 = Saturday`, as in JavaScript `Date.prototype.getDay`. -/
def getDay (d : Nat) : Nat := (d + 4) % 7

/-- Day number of January `d`, 2026 (2026-01-01, a Thursday, is day 20454). -/
def jan2026 (d : Nat) : Nat := 20453 + d

/-- Source `src/types`: a team member. -/
structure Member where
  id : Nat
  host : String
  slackMemberId : String
  deriving DecidableEq, Repr

/-- Source `src/types`: a rotating task. -/
structure Task where
  id : Nat
  name : String
  rotationRule : String
  deriving DecidableEq, Repr

/-- Source `src/types`: the current assignment period of a task.  The source stores
`startDate`/`endDate` as ISO `YYYY-MM-DD` strings; they are represented here
by the corresponding day numbers. -/
structure TaskAssignment where
  id : Nat
  taskId : Nat
  memberId : Nat
  startDate : Nat
  endDate : Nat
  deriving DecidableEq, Repr

/-- Source `src/lib/holiday.ts`: one record of the holiday API
(`{ name, date, isOffDay }`). -/
structure HolidayDto where
  name : String
  date : Nat
  isOffDay : Bool
  deriving DecidableEq, Repr

/-- Source `src/lib/holiday.ts` `isWorkingDay`: a date found in the holiday data is a
working day iff `isOffDay` is false (makeup working days override weekends);
otherwise weekdays are working and Saturday/Sunday are not.  The `holidays`
argument is the list `getHolidays` produced for the relevant year (empty on
fetch failure). -/
def isWorkingDay (holidays : List HolidayDto) (date : Nat) : Bool :=
  match holidays.find? (fun h => h.date == date) with
  | some holiday => !holiday.isOffDay
  | none => !(getDay date == 0 || getDay date == 6)

/-- Source `src/lib/rotation.ts` `getNextDayAfterTargetDay`: next occurrence of
`targetDay` strictly after `start` (1–7 days ahead, a full week when `start`
already falls on `targetDay`). -/
def getNextDayAfterTargetDay (start : Nat) (targetDay : Nat) : Nat :=
  let daysToAdd := (targetDay + 7 - getDay start) % 7
  let daysToAddWithExtra := if daysToAdd == 0 then 7 else daysToAdd
  start + daysToAddWithExtra

/-- The scan loop of `src/lib/rotation.ts` `findNextWorkingDay`: starting at
candidate day `d`, advance one day at a time until `isWorkingDay`; `fuel`
bounds the number of candidates inspected (`none` = fuel exhausted). -/
def findWorkingFrom (holidays : List HolidayDto) : Nat → Nat → Option Nat
  | _, 0 => none
  | d, fuel + 1 =>
    if isWorkingDay holidays d then some d else findWorkingFrom holidays (d + 1) fuel

/-- Source `src/lib/rotation.ts` `findNextWorkingDay`: first working day strictly
after `fromDate` (the loop starts at `fromDate + 1`). -/
def findNextWorkingDay (holidays : List HolidayDto) (fromDate : Nat) (fuel : Nat) : Option Nat :=
  findWorkingFrom holidays (fromDate + 1) fuel

/-- The errors thrown by `src/lib/rotation.ts`, carrying the data the source
interpolates into the thrown `Error` messages. -/
inductive RotationError where
  /-- Message `Invalid rotation rule: ${task.rotationRule}` -/
  | invalidRule (rule : String)
  /-- Message `Invalid day in rotation rule: ${dayOfWeekStr}` -/
  | invalidDay (day : String)
  /-- Message `Unsupported frequency: ${frequency}` -/
  | unsupportedFrequency (frequency : String)
  /-- Message `Current member not found: memberId ${currentMemberId} does not exist.
  Available members: [${memberIds}]` -/
  | memberNotFound (memberId : Nat) (available : List Nat)
  deriving DecidableEq, Repr

instance {ε α : Type} [DecidableEq ε] [DecidableEq α] : DecidableEq (Except ε α)
  | .error e₁, .error e₂ =>
    if h : e₁ = e₂ then .isTrue (by rw [h]) else .isFalse (fun hh => h (by cases hh; rfl))
  | .error _, .ok _ => .isFalse (fun hh => by cases hh)
  | .ok _, .error _ => .isFalse (fun hh => by cases hh)
  | .ok a₁, .ok a₂ =>
    if h : a₁ = a₂ then .isTrue (by rw [h]) else .isFalse (fun hh => h (by cases hh; rfl))

/-- The `{ startDate, endDate }` record returned by
`calculateNextRotationDates`. -/
structure RotationPeriod where
  startDate : Nat
  endDate : Nat
  deriving DecidableEq, Repr

/-- The day names indexed by `calculateNextRotationDates`
(`['sunday', …, 'saturday']`). -/
def dayNames : List String :=
  ["sunday", "monday", "tuesday", "wednesday", "thursday", "friday", "saturday"]

/-- JavaScript `str.split('_')` over the character list of the string:
maximal runs between `_` separators, with empty runs kept
(`"a__b" ↦ ["a", "", "b"]`, `"" ↦ [""]`). -/
def splitOnUnderscore : List Char → List (List Char)
  | [] => [[]]
  | c :: rest =>
    match splitOnUnderscore rest, c == '_' with
    | r, true => [] :: r
    | [], false => [[c]]
    | h :: t, false => (c :: h) :: t

/-- Rule parsing of `src/lib/rotation.ts` `calculateNextRotationDates`
(lines 137–148): split on `_`, reject anything but two parts, look the day
name up case-insensitively (`indexOf === -1` becomes
`findIdx = dayNames.length`; `toLowerCase` is `Char.toLower` pointwise). -/
def parseRotationRule (rule : String) : Except RotationError (String × Nat) :=
  match splitOnUnderscore rule.data with
  | [frequency, dayOfWeekStr] =>
    let lowered : String := ⟨dayOfWeekStr.map Char.toLower⟩
    let targetDay := dayNames.findIdx (fun d => d == lowered)
    if targetDay ≥ dayNames.length then .error (.invalidDay ⟨dayOfWeekStr⟩)
    else .ok (⟨frequency⟩, targetDay)
  | _ => .error (.invalidRule rule)

/-- Source `src/lib/rotation.ts` `calculateNextRotationDates`: the next
`{startDate, endDate}` period of `task` computed from `fromDate` (the current
end date).  `none` = the working-day search ran out of fuel;
`some (.error e)` = the source throws; `some (.ok p)` = the returned period. -/
def calculateNextRotationDates (holidays : List HolidayDto) (fuel : Nat) (task : Task)
    (fromDate : Nat) : Option (Except RotationError RotationPeriod) :=
  if task.rotationRule == "daily" then
    match findNextWorkingDay holidays fromDate fuel with
    | none => none
    | some nextWorkingDay => some (.ok ⟨nextWorkingDay, nextWorkingDay⟩)
  else
    match parseRotationRule task.rotationRule with
    | .error e => some (.error e)
    | .ok (frequency, targetDay) =>
      if frequency == "weekly" then
        match findNextWorkingDay holidays fromDate fuel with
        | none => none
        | some startDate =>
          some (.ok ⟨startDate, getNextDayAfterTargetDay startDate targetDay⟩)
      else if frequency == "biweekly" then
        match findNextWorkingDay holidays fromDate fuel with
        | none => none
        | some startDate =>
          let endDate := getNextDayAfterTargetDay startDate targetDay
          let endDate := if endDate ≤ startDate then endDate + 7 else endDate
          some (.ok ⟨startDate, endDate + 7⟩)
      else some (.error (.unsupportedFrequency frequency))

/-- The comparison `(a, b) => a.id - b.id` used by `rotateMemberList`'s sort. -/
def byId (a b : Member) : Prop := a.id ≤ b.id

instance : DecidableRel byId := fun a b => Nat.decLe a.id b.id

instance : IsTotal Member byId := ⟨fun a b => Nat.le_total a.id b.id⟩

instance : IsTrans Member byId := ⟨fun _ _ _ => Nat.le_trans⟩

/-- JavaScript `[...members].sort((a, b) => a.id - b.id)` of `rotateMemberList`:
a sort of the member list by ascending id. -/
def sortById (members : List Member) : List Member :=
  List.insertionSort byId members

/-- Fallback value for the (unreachable) out-of-range list access in
`rotateMemberList`; JavaScript would crash there. -/
def defaultMember : Member := ⟨0, "", ""⟩

/-- Source `src/lib/rotation.ts` `rotateMemberList`: sort members by id ascending,
locate `currentMemberId` (JavaScript `findIndex === -1` becomes
`findIdx = length`), throw `memberNotFound` when absent, and otherwise return
the id of the member `rotations` positions ahead, circularly. -/
def rotateMemberList (currentMemberId : Nat) (members : List Member) (rotations : Nat) :
    Except RotationError Nat :=
  let sortedMembers := sortById members
  let currentIndex := sortedMembers.findIdx (fun m => m.id == currentMemberId)
  if currentIndex ≥ sortedMembers.length then
    .error (.memberNotFound currentMemberId (sortedMembers.map (fun m => m.id)))
  else
    .ok ((sortedMembers.getD ((currentIndex + rotations) % sortedMembers.length)
      defaultMember).id)

/-- Source `src/lib/rotation.ts` `shouldRotateToday`: rotation may only happen on a
working day (the `task` argument is unused in the source as well). -/
def shouldRotateToday (holidays : List HolidayDto) (_task : Task) (today : Nat) : Bool :=
  isWorkingDay holidays today

/-- The per-assignment loop of `src/lib/rotation.ts` `updateTaskAssignments`.
Returns `some (writes, err)`: `writes` is the list of records handed to
`updateTaskAssignment`, in call order, and `err` is the error that aborted
the loop, if any (the source has no try/catch around the loop body, so a
thrown error propagates and the remaining assignments are not visited).
`none` = a working-day search ran out of fuel. -/
def processAssignments (holidays : List HolidayDto) (fuel : Nat) (tasks : List Task)
    (members : List Member) (today : Nat) :
    List TaskAssignment → Option (List TaskAssignment × Option RotationError)
  | [] => some ([], none)
  | assignment :: rest =>
    match tasks.find? (fun t => t.id == assignment.taskId) with
    | none =>
      -- `Task not found for assignment …`: warn and continue
      processAssignments holidays fuel tasks members today rest
    | some task =>
      let endDate := assignment.endDate
      if !shouldRotateToday holidays task today then
        -- `Not rotation day …, skipping`
        processAssignments holidays fuel tasks members today rest
      else if today ≤ endDate then
        -- `Assignment … is still current, skipping`
        processAssignments holidays fuel tasks members today rest
      else
        match calculateNextRotationDates holidays fuel task endDate with
        | none => none
        | some (.error e) => some ([], some e)
        | some (.ok period) =>
          match rotateMemberList assignment.memberId members 1 with
          | .error e => some ([], some e)
          | .ok newMemberId =>
            match processAssignments holidays fuel tasks members today rest with
            | none => none
            | some (writes, err) =>
              some ({ assignment with
                        memberId := newMemberId,
                        startDate := period.startDate,
                        endDate := period.endDate } :: writes, err)

/-- Source `src/lib/rotation.ts` `updateTaskAssignments`: the automatic-rollover
orchestrator, applied to a snapshot of the stored tasks, members and
assignments and to `today` (midnight-truncated in the source; dates here are
already day-granular). -/
def updateTaskAssignments (holidays : List HolidayDto) (fuel : Nat) (tasks : List Task)
    (members : List Member) (assignments : List TaskAssignment) (today : Nat) :
    Option (List TaskAssignment × Option RotationError) :=
  processAssignments holidays fuel tasks members today assignments

/-- Modelled from the spec: `calculateEndDateFromStart` (the spec's
`periodFromStart`), the sprint-kickoff sibling of
`calculateNextRotationDates`.  Its implementation is not among the provided
source files — it is only referenced by the repository's test suite
(`TASK_ROTATION_GUIDE.md`, `calculateEndDateFromStart - Sprint Kickoff`) and
reached from `src/app/api/assignments/restart-rotation/route.ts` through the
likewise-missing `kickoffSprint`.  Per the spec (§4.3, explicit-start
variant): the caller-supplied date is used verbatim as `startDate` — no
`findNextWorkingDay` search — and the day-of-week and add-one/two-week math
is identical to `calculateNextRotationDates`; for `daily`,
`endDate = startDate`. -/
def calculateEndDateFromStart (task : Task) (startDate : Nat) :
    Except RotationError Nat :=
  if task.rotationRule == "daily" then .ok startDate
  else
    match parseRotationRule task.rotationRule with
    | .error e => .error e
    | .ok (frequency, targetDay) =>
      if frequency == "weekly" then .ok (getNextDayAfterTargetDay startDate targetDay)
      else if frequency == "biweekly" then
        let endDate := getNextDayAfterTargetDay startDate targetDay
        let endDate := if endDate ≤ startDate then endDate + 7 else endDate
        .ok (endDate + 7)
      else .error (.unsupportedFrequency frequency)

/-- Sample members with ids `[8, 10, 13, 14]` (spec §8, wrap-around
property). -/
def sampleMembers : List Member :=
  [⟨8, "Alice", "U8"⟩, ⟨10, "Bob", "U10"⟩, ⟨13, "Charlie", "U13"⟩, ⟨14, "Dana", "U14"⟩]

/-- The rotation rule `weekly_<day>` for target day index `t`. -/
def weeklyRule (t : Nat) : String := "weekly_" ++ dayNames.getD t ("")

/-- The rotation rule `biweekly_<day>` for target day index `t`. -/
def biweeklyRule (t : Nat) : String := "biweekly_" ++ dayNames.getD t ("")

/-! ### Concrete fixtures used by the claim theorems -/

/-- A daily task with id 1, as in the repository's seed data. -/
def dailyTask : Task := ⟨1, "English word", "daily"⟩

/-- A one-member store whose only member has id 8. -/
def oneMemberStore : List Member := [⟨8, "Alice", "U8"⟩]

/-- An assignment of `dailyTask` referencing the deleted member id 99,
with a period that ended on Friday 2026-01-02. -/
def orphanAssignment : TaskAssignment := ⟨1, 1, 99, jan2026 1, jan2026 2⟩

/-- A valid, due assignment of `dailyTask` for member 8, same period. -/
def dueAssignment : TaskAssignment := ⟨2, 1, 8, jan2026 1, jan2026 2⟩

/-- A current assignment of `dailyTask` for member 8 whose period
(Mon 2026-01-05 … Fri 2026-01-09) has not ended. -/
def currentAssignment : TaskAssignment := ⟨1, 1, 8, jan2026 5, jan2026 9⟩

/-! ### Helper lemmas about `getNextDayAfterTargetDay` -/

theorem getNextDayAfterTargetDay_gt (start t : Nat) :
    start < getNextDayAfterTargetDay start t := by
  simp only [getNextDayAfterTargetDay, getDay, beq_iff_eq]
  split <;> omega

theorem getNextDayAfterTargetDay_le (start t : Nat) :
    getNextDayAfterTargetDay start t ≤ start + 7 := by
  simp only [getNextDayAfterTargetDay, getDay, beq_iff_eq]
  split <;> omega

theorem getDay_getNextDayAfterTargetDay (start t : Nat) (ht : t < 7) :
    getDay (getNextDayAfterTargetDay start t) = t := by
  simp only [getNextDayAfterTargetDay, getDay, beq_iff_eq]
  split <;> omega

theorem getNextDayAfterTargetDay_min (start t : Nat) (ht : t < 7) :
    ∀ d, start < d → d < getNextDayAfterTargetDay start t → getDay d ≠ t := by
  intro d h1 h2
  simp only [getNextDayAfterTargetDay, getDay, beq_iff_eq] at h2 ⊢
  revert h2
  split <;> omega

/-! ### Helper lemmas about the working-day search -/

theorem findWorkingFrom_isSome (H : List HolidayDto) :
    ∀ (fuel d j : Nat), j < fuel → isWorkingDay H (d + j) = true →
      (findWorkingFrom H d fuel).isSome = true := by
  intro fuel
  induction fuel with
  | zero => intro d j hj _; omega
  | succ f ih =>
    intro d j hj hw
    by_cases h : isWorkingDay H d = true
    · simp [findWorkingFrom, h]
    · have hj0 : j ≠ 0 := by
        intro h0
        rw [h0, Nat.add_zero] at hw
        exact h hw
      have : d + j = (d + 1) + (j - 1) := by omega
      rw [this] at hw
      simpa [findWorkingFrom, h] using ih (d + 1) (j - 1) (by omega) hw

theorem findWorkingFrom_sound (H : List HolidayDto) :
    ∀ (fuel d s : Nat), findWorkingFrom H d fuel = some s →
      d ≤ s ∧ isWorkingDay H s = true ∧ ∀ e, d ≤ e → e < s → isWorkingDay H e = false := by
  intro fuel
  induction fuel with
  | zero => intro d s h; simp [findWorkingFrom] at h
  | succ f ih =>
    intro d s h
    by_cases hw : isWorkingDay H d = true
    · simp [findWorkingFrom, hw] at h
      subst h
      exact ⟨Nat.le_refl _, hw, fun e h1 h2 => absurd (Nat.lt_of_le_of_lt h1 h2) (Nat.lt_irrefl _)⟩
    · simp only [findWorkingFrom, hw, Bool.false_eq_true, if_false] at h
      obtain ⟨h1, h2, h3⟩ := ih (d + 1) s h
      refine ⟨by omega, h2, fun e he1 he2 => ?_⟩
      rcases Nat.eq_or_lt_of_le he1 with he | he
      · rw [← he]
        exact Bool.not_eq_true _ ▸ (by simpa using hw)
      · exact h3 e (by omega) he2

theorem findNextWorkingDay_isSome (H : List HolidayDto) (fromDate k : Nat)
    (hk : 1 ≤ k) (hw : isWorkingDay H (fromDate + k) = true) :
    ∀ fuel, k ≤ fuel → (findNextWorkingDay H fromDate fuel).isSome = true := by
  intro fuel hfuel
  have : fromDate + k = (fromDate + 1) + (k - 1) := by omega
  rw [this] at hw
  exact findWorkingFrom_isSome H fuel (fromDate + 1) (k - 1) (by omega) hw

theorem findNextWorkingDay_sound (H : List HolidayDto) (fromDate fuel s : Nat)
    (h : findNextWorkingDay H fromDate fuel = some s) :
    fromDate < s ∧ isWorkingDay H s = true ∧
      ∀ d, fromDate < d → d < s → isWorkingDay H d = false := by
  obtain ⟨h1, h2, h3⟩ := findWorkingFrom_sound H fuel (fromDate + 1) s h
  exact ⟨by omega, h2, fun d hd1 hd2 => h3 d (by omega) hd2⟩

/-! ### Helper lemmas about rule parsing and the calculator's branches -/

theorem parseRotationRule_weekly (t : Nat) (ht : t < 7) :
    parseRotationRule (weeklyRule t) = .ok ("weekly", t) ∧
      (weeklyRule t == "daily") = false := by
  interval_cases t <;> exact ⟨by decide, by decide⟩

theorem parseRotationRule_biweekly (t : Nat) (ht : t < 7) :
    parseRotationRule (biweeklyRule t) = .ok ("biweekly", t) ∧
      (biweeklyRule t == "daily") = false := by
  interval_cases t <;> exact ⟨by decide, by decide⟩

theorem calculateNextRotationDates_weekly (H : List HolidayDto) (F : Nat) (task : Task)
    (fromDate t : Nat) (ht : t < 7) (hr : task.rotationRule = weeklyRule t) :
    calculateNextRotationDates H F task fromDate =
      match findNextWorkingDay H fromDate F with
      | none => none
      | some s => some (.ok ⟨s, getNextDayAfterTargetDay s t⟩) := by
  obtain ⟨hp, hd⟩ := parseRotationRule_weekly t ht
  cases hfind : findNextWorkingDay H fromDate F <;>
    simp [calculateNextRotationDates, hr, hd, hp, hfind]

theorem calculateNextRotationDates_biweekly (H : List HolidayDto) (F : Nat) (task : Task)
    (fromDate t : Nat) (ht : t < 7) (hr : task.rotationRule = biweeklyRule t) :
    calculateNextRotationDates H F task fromDate =
      match findNextWorkingDay H fromDate F with
      | none => none
      | some s => some (.ok ⟨s, getNextDayAfterTargetDay s t + 7⟩) := by
  obtain ⟨hp, hd⟩ := parseRotationRule_biweekly t ht
  cases hfind : findNextWorkingDay H fromDate F with
  | none => simp [calculateNextRotationDates, hr, hd, hp, hfind]
  | some s =>
    have hocc := getNextDayAfterTargetDay_gt s t
    simp [calculateNextRotationDates, hr, hd, hp, hfind, Nat.not_le.mpr hocc]

theorem calculateNextRotationDates_start_le_end (H : List HolidayDto) (F : Nat)
    (task : Task) (fromDate : Nat) (p : RotationPeriod)
    (h : calculateNextRotationDates H F task fromDate = some (.ok p)) :
    p.startDate ≤ p.endDate := by
  unfold calculateNextRotationDates at h
  split at h
  · -- daily
    split at h
    · exact absurd h (by simp)
    · next s heq =>
      simp only [Option.some.injEq, Except.ok.injEq] at h
      rw [← h]
  · -- weekly / biweekly / errors
    split at h
    · exact absurd h (by simp)
    · next freq t heq =>
      split at h
      · -- weekly
        split at h
        · exact absurd h (by simp)
        · next s hfind =>
          simp only [Option.some.injEq, Except.ok.injEq] at h
          rw [← h]
          exact Nat.le_of_lt (getNextDayAfterTargetDay_gt s t)
      · split at h
        · -- biweekly
          split at h
          · exact absurd h (by simp)
          · next s hfind =>
            simp only [Option.some.injEq, Except.ok.injEq] at h
            rw [← h]
            have := getNextDayAfterTargetDay_gt s t
            dsimp only
            split <;> omega
        · exact absurd h (by simp)

theorem calculateEndDateFromStart_agrees (H : List HolidayDto) (F : Nat)
    (task : Task) (fromDate : Nat) (p : RotationPeriod)
    (h : calculateNextRotationDates H F task fromDate = some (.ok p)) :
    calculateEndDateFromStart task p.startDate = .ok p.endDate := by
  unfold calculateNextRotationDates at h
  split at h
  · next hdaily =>
    split at h
    · exact absurd h (by simp)
    · next s heq =>
      simp only [Option.some.injEq, Except.ok.injEq] at h
      rw [← h]
      simp [calculateEndDateFromStart, hdaily]
  · next hdaily =>
    split at h
    · exact absurd h (by simp)
    · next freq t heq =>
      split at h
      · next hweekly =>
        split at h
        · exact absurd h (by simp)
        · next s hfind =>
          simp only [Option.some.injEq, Except.ok.injEq] at h
          rw [← h]
          simp [calculateEndDateFromStart, hdaily, heq, hweekly]
      · next hweekly =>
        split at h
        · next hbiweekly =>
          split at h
          · exact absurd h (by simp)
          · next s hfind =>
            simp only [Option.some.injEq, Except.ok.injEq] at h
            rw [← h]
            simp [calculateEndDateFromStart, hdaily, heq, hweekly, hbiweekly]
        · exact absurd h (by simp)

/-! ### Helper lemmas about `sortById` and `rotateMemberList` -/

theorem sortById_perm (M : List Member) : List.Perm (sortById M) M :=
  List.perm_insertionSort byId M

theorem sortById_ids_sorted (M : List Member) :
    List.Sorted (· ≤ ·) ((sortById M).map (fun m => m.id)) :=
  List.Pairwise.map _ (fun _ _ hab => hab) (List.sorted_insertionSort byId M)

theorem sortById_ids_perm (M : List Member) :
    List.Perm ((sortById M).map (fun m => m.id)) (M.map (fun m => m.id)) :=
  (sortById_perm M).map _

theorem mem_sortById_ids_iff (M : List Member) (c : Nat) :
    c ∈ (sortById M).map (fun m => m.id) ↔ c ∈ M.map (fun m => m.id) :=
  (sortById_ids_perm M).mem_iff

theorem rotateMemberList_error_of_not_mem (c : Nat) (M : List Member) (adv : Nat)
    (hc : c ∉ M.map (fun m => m.id)) :
    rotateMemberList c M adv =
      .error (.memberNotFound c ((sortById M).map (fun m => m.id))) := by
  have hall : ∀ m ∈ sortById M, (m.id == c) = false := by
    intro m hm
    rw [beq_eq_false_iff_ne]
    intro hmc
    exact hc ((mem_sortById_ids_iff M c).mp (List.mem_map.mpr ⟨m, hm, hmc⟩))
  have hlen : (sortById M).findIdx (fun m => m.id == c) = (sortById M).length :=
    List.findIdx_eq_length.mpr hall
  unfold rotateMemberList
  rw [if_pos (Nat.le_of_eq hlen.symm)]

theorem rotateMemberList_ok_of_mem (c : Nat) (M : List Member) (adv : Nat)
    (hc : c ∈ M.map (fun m => m.id)) :
    rotateMemberList c M adv =
      .ok (((sortById M).getD
        (((sortById M).findIdx (fun m => m.id == c) + adv) % (sortById M).length)
        defaultMember).id) := by
  have hex : ∃ m ∈ sortById M, (m.id == c) = true := by
    obtain ⟨m, hm, hmc⟩ := List.mem_map.mp ((mem_sortById_ids_iff M c).mpr hc)
    exact ⟨m, hm, beq_iff_eq.mpr hmc⟩
  have hlt : (sortById M).findIdx (fun m => m.id == c) < (sortById M).length :=
    List.findIdx_lt_length_of_exists hex
  unfold rotateMemberList
  rw [if_neg (by omega)]

theorem findIdx_eq_of_nodup_ids :
    ∀ (L : List Member) (i c : Nat), (L.map (fun m => m.id)).Nodup →
      i < L.length → (L.getD i defaultMember).id = c →
      L.findIdx (fun m => m.id == c) = i := by
  intro L
  induction L with
  | nil => intro i c _ hi _; simp at hi
  | cons m L ih =>
    intro i c hnd hi hc
    rw [List.map_cons] at hnd
    obtain ⟨hhead, htail⟩ := List.nodup_cons.mp hnd
    cases i with
    | zero =>
      simp only [List.getD_cons_zero] at hc
      simp [List.findIdx_cons, hc]
    | succ j =>
      have hj : j < L.length := by simpa using hi
      simp only [List.getD_cons_succ] at hc
      have hmem : c ∈ L.map (fun m => m.id) := by
        refine List.mem_map.mpr ⟨L.getD j defaultMember, ?_, hc⟩
        rw [List.getD_eq_getElem?_getD, List.getElem?_eq_getElem hj, Option.getD_some]
        exact List.getElem_mem hj
      have hne : (m.id == c) = false := by
        rw [beq_eq_false_iff_ne]
        intro hmc
        exact hhead (hmc ▸ hmem)
      simp [List.findIdx_cons, hne, ih j c htail hj hc]

/-! ### Helper lemmas about the rollover orchestrator -/

theorem processAssignments_noop (H : List HolidayDto) (F : Nat) (T : List Task)
    (M : List Member) (today : Nat) :
    ∀ assignments : List TaskAssignment, (∀ a ∈ assignments, today ≤ a.endDate) →
      processAssignments H F T M today assignments = some ([], none) := by
  intro assignments
  induction assignments with
  | nil => intro _; rfl
  | cons a rest ih =>
    intro hall
    have ha : today ≤ a.endDate := hall a (List.mem_cons_self a rest)
    have hrest := ih (fun x hx => hall x (List.mem_cons_of_mem a hx))
    cases hfind : T.find? (fun t => t.id == a.taskId) with
    | none => simpa [processAssignments, hfind] using hrest
    | some task =>
      cases hb : (!shouldRotateToday H task today) with
      | true => simpa [processAssignments, hfind, hb] using hrest
      | false => simpa [processAssignments, hfind, hb, ha] using hrest

theorem processAssignments_append (H : List HolidayDto) (F : Nat) (T : List Task)
    (M : List Member) (today : Nat) :
    ∀ (pre : List TaskAssignment) (ws : List TaskAssignment),
      processAssignments H F T M today pre = some (ws, none) →
      ∀ rest : List TaskAssignment,
        processAssignments H F T M today (pre ++ rest) =
          (processAssignments H F T M today rest).map (fun r => (ws ++ r.1, r.2)) := by
  intro pre
  induction pre with
  | nil =>
    intro ws h rest
    simp only [processAssignments, Option.some.injEq, Prod.mk.injEq] at h
    obtain ⟨h1, _⟩ := h
    subst h1
    simp only [List.nil_append]
    cases h2 : processAssignments H F T M today rest <;> simp [h2]
  | cons a pre ih =>
    intro ws h rest
    rw [List.cons_append]
    cases hfind : T.find? (fun t => t.id == a.taskId) with
    | none =>
      rw [show processAssignments H F T M today (a :: pre)
            = processAssignments H F T M today pre by
          simp [processAssignments, hfind]] at h
      simpa [processAssignments, hfind] using ih ws h rest
    | some task =>
      by_cases hb : (!shouldRotateToday H task today) = true
      · rw [show processAssignments H F T M today (a :: pre)
              = processAssignments H F T M today pre by
            simp [processAssignments, hfind, hb]] at h
        simp only [processAssignments, hfind, hb, if_true]
        exact ih ws h rest
      · by_cases hcur : today ≤ a.endDate
        · rw [show processAssignments H F T M today (a :: pre)
                = processAssignments H F T M today pre by
              simp [processAssignments, hfind, hb, hcur]] at h
          simp only [processAssignments, hfind, hb, if_false, hcur, if_true]
          exact ih ws h rest
        · cases hcalc : calculateNextRotationDates H F task a.endDate with
          | none => simp [processAssignments, hfind, hb, hcur, hcalc] at h
          | some res =>
            cases res with
            | error e => simp [processAssignments, hfind, hb, hcur, hcalc] at h
            | ok period =>
              cases hrot : rotateMemberList a.memberId M 1 with
              | error e =>
                simp [processAssignments, hfind, hb, hcur, hcalc, hrot] at h
              | ok newId =>
                cases hpre : processAssignments H F T M today pre with
                | none => simp [processAssignments, hfind, hb, hcur, hcalc, hrot, hpre] at h
                | some r =>
                  obtain ⟨ws', err⟩ := r
                  simp only [processAssignments, hfind, hb, hcur, hcalc, hrot, hpre,
                    Bool.not_eq_true, if_false, Option.some.injEq, Prod.mk.injEq] at h
                  obtain ⟨hws, herr⟩ := h
                  have hrec := ih ws' hpre rest
                  simp only [processAssignments, hfind, hb, hcur, hcalc, hrot,
                    Bool.not_eq_true, if_false, hrec]
                  cases h2 : processAssignments H F T M today rest <;> simp [h2]

theorem processAssignments_writes_le (H : List HolidayDto) (F : Nat) (T : List Task)
    (M : List Member) (today : Nat) :
    ∀ (assignments ws : List TaskAssignment) (err : Option RotationError),
      processAssignments H F T M today assignments = some (ws, err) →
      ∀ w ∈ ws, w.startDate ≤ w.endDate := by
  intro assignments
  induction assignments with
  | nil =>
    intro ws err h w hw
    simp only [processAssignments, Option.some.injEq, Prod.mk.injEq] at h
    obtain ⟨h1, _⟩ := h
    subst h1
    simp at hw
  | cons a rest ih =>
    intro ws err h w hw
    cases hfind : T.find? (fun t => t.id == a.taskId) with
    | none =>
      rw [show processAssignments H F T M today (a :: rest)
            = processAssignments H F T M today rest by
          simp [processAssignments, hfind]] at h
      exact ih ws err h w hw
    | some task =>
      by_cases hb : (!shouldRotateToday H task today) = true
      · rw [show processAssignments H F T M today (a :: rest)
              = processAssignments H F T M today rest by
            simp [processAssignments, hfind, hb]] at h
        exact ih ws err h w hw
      · by_cases hcur : today ≤ a.endDate
        · rw [show processAssignments H F T M today (a :: rest)
                = processAssignments H F T M today rest by
              simp [processAssignments, hfind, hb, hcur]] at h
          exact ih ws err h w hw
        · cases hcalc : calculateNextRotationDates H F task a.endDate with
          | none => simp [processAssignments, hfind, hb, hcur, hcalc] at h
          | some res =>
            cases res with
            | error e =>
              simp only [processAssignments, hfind, hb, hcur, hcalc,
                Bool.not_eq_true, if_false, Option.some.injEq, Prod.mk.injEq] at h
              obtain ⟨h1, _⟩ := h
              simp at hw
            | ok period =>
              cases hrot : rotateMemberList a.memberId M 1 with
              | error e =>
                simp only [processAssignments, hfind, hb, hcur, hcalc, hrot,
                  Bool.not_eq_true, if_false, Option.some.injEq, Prod.mk.injEq] at h
                obtain ⟨h1, _⟩ := h
                simp at hw
              | ok newId =>
                cases hrest : processAssignments H F T M today rest with
                | none => simp [processAssignments, hfind, hb, hcur, hcalc, hrot, hrest] at h
                | some r =>
                  obtain ⟨ws', err'⟩ := r
                  simp only [processAssignments, hfind, hb, hcur, hcalc, hrot, hrest,
                    Bool.not_eq_true, if_false, Option.some.injEq, Prod.mk.injEq] at h
                  obtain ⟨h1, _⟩ := h
                  rcases List.mem_cons.mp hw with hwa | hwr
                  · subst hwa
                    exact calculateNextRotationDates_start_le_end H F task a.endDate
                      period hcalc
                  · exact ih _ _ hrest w hwr

theorem isWorkingDay_nil_iff (d : Nat) :
    isWorkingDay [] d = true ↔ getDay d ≠ 0 ∧ getDay d ≠ 6 := by
  simp [isWorkingDay, not_or]

theorem getD_mem_of_lt (L : List Member) (i : Nat) (h : i < L.length) :
    L.getD i defaultMember ∈ L := by
  rw [List.getD_eq_getElem?_getD, List.getElem?_eq_getElem h, Option.getD_some]
  exact List.getElem_mem h

/-! ### Claim theorems -/

/-- C1 (code_bug evaluation): contrary to the claim, `calculateNextRotationDates`
applies no minimum-duration fairness rule for weekly rules.  For
`weekly_friday` with reference date Wednesday 2026-01-07 (and no holidays)
it returns the period Thursday 2026-01-08 … Friday 2026-01-09 — a 1-day
period ending the same week — instead of pushing the end date out to Friday
2026-01-16 as the claim (and the repository's own `BUG FIX` test in
`TASK_ROTATION_GUIDE.md`, which expects a duration of at least 3 days)
requires.  By contrast the Monday-start alignment the claim also mentions
does hold (reference Friday 2026-01-09 → Monday 2026-01-12 … Friday
2026-01-16). -/
theorem C1_weekly_fairness_missing :
    calculateNextRotationDates [] 5 ⟨3, "Standup", "weekly_friday"⟩ (jan2026 7)
        = some (.ok ⟨jan2026 8, jan2026 9⟩)
      ∧ jan2026 9 - jan2026 8 = 1
      ∧ ¬ 3 ≤ jan2026 9 - jan2026 8
      ∧ getDay (jan2026 7) = 3 ∧ getDay (jan2026 8) = 4 ∧ getDay (jan2026 9) = 5
      ∧ calculateNextRotationDates [] 5 ⟨3, "Standup", "weekly_friday"⟩ (jan2026 9)
          = some (.ok ⟨jan2026 12, jan2026 16⟩) := by
  decide

/-- C2 (counterexample): the claim says a member-not-found error is fatal only
for the offending assignment and every other assignment in the batch is still
attempted and, if due, persisted.  Running `updateTaskAssignments` on the
batch `[orphanAssignment, dueAssignment]` on working Monday 2026-01-05 —
where `dueAssignment` is due (its end date has passed) and references the
existing member 8 — persists nothing at all: the member-not-found error
thrown for `orphanAssignment` aborts the batch and `dueAssignment` is never
attempted. -/
theorem C2_counterexample :
    updateTaskAssignments [] 5 [dailyTask] oneMemberStore
        [orphanAssignment, dueAssignment] (jan2026 5)
        = some ([], some (.memberNotFound 99 [8]))
      ∧ dueAssignment.endDate < jan2026 5
      ∧ dueAssignment.memberId ∈ oneMemberStore.map (fun m => m.id)
      ∧ isWorkingDay [] (jan2026 5) = true := by
  decide

/-- C2 (amended): in `updateTaskAssignments`, a member-not-found
`DataIntegrityError` aborts the batch at the offending assignment: every
assignment before it in the list is still attempted (its writes are kept),
the error — carrying the offending id and the full sorted id list — is
surfaced, and the offending assignment and every assignment after it are not
persisted. -/
theorem C2_member_not_found_aborts_batch (H : List HolidayDto) (F : Nat)
    (T : List Task) (M : List Member) (today : Nat)
    (pre : List TaskAssignment) (bad : TaskAssignment) (post : List TaskAssignment)
    (ws : List TaskAssignment) (task : Task) (p : RotationPeriod)
    (hpre : processAssignments H F T M today pre = some (ws, none))
    (htask : T.find? (fun t => t.id == bad.taskId) = some task)
    (hwork : shouldRotateToday H task today = true)
    (hdue : ¬ today ≤ bad.endDate)
    (hcalc : calculateNextRotationDates H F task bad.endDate = some (.ok p))
    (hmiss : bad.memberId ∉ M.map (fun m => m.id)) :
    updateTaskAssignments H F T M (pre ++ bad :: post) today
      = some (ws, some (.memberNotFound bad.memberId
          ((sortById M).map (fun m => m.id)))) := by
  unfold updateTaskAssignments
  rw [processAssignments_append H F T M today pre ws hpre]
  have hrot := rotateMemberList_error_of_not_mem bad.memberId M 1 hmiss
  simp [processAssignments, htask, hwork, hdue, hcalc, hrot]

theorem C2_member_not_found_aborts_batch_witness :
    updateTaskAssignments [] 5 [dailyTask] oneMemberStore
        ([] ++ orphanAssignment :: [dueAssignment]) (jan2026 5)
      = some ([], some (.memberNotFound 99 [8])) :=
  C2_member_not_found_aborts_batch [] 5 [dailyTask] oneMemberStore (jan2026 5)
    [] orphanAssignment [dueAssignment] [] dailyTask ⟨jan2026 5, jan2026 5⟩
    rfl (by decide) (by decide) (by decide) (by decide) (by decide)

/-- C3: the sprint-reset variant `calculateEndDateFromStart` (modelled from
the spec, see its doc comment) uses the caller-supplied date verbatim as the
period's start — it performs no working-day search — and applies exactly the
end-date math of `calculateNextRotationDates`: whenever the automatic path
returns a period `p`, the explicit-start variant applied to `p.startDate`
returns `p.endDate`.  In particular for `biweekly_wednesday` with explicit
start Wednesday 2026-01-07 the computed end date is Wednesday 2026-01-21,
exactly 14 days after the start. -/
theorem C3_end_date_from_start :
    (∀ (H : List HolidayDto) (F : Nat) (task : Task) (fromDate : Nat)
        (p : RotationPeriod),
        calculateNextRotationDates H F task fromDate = some (.ok p) →
        calculateEndDateFromStart task p.startDate = .ok p.endDate)
      ∧ calculateEndDateFromStart ⟨1, "Retro", "biweekly_wednesday"⟩ (jan2026 7)
          = .ok (jan2026 21)
      ∧ getDay (jan2026 7) = 3 ∧ getDay (jan2026 21) = 3
      ∧ jan2026 21 - jan2026 7 = 14 :=
  ⟨fun H F task fromDate p h => calculateEndDateFromStart_agrees H F task fromDate p h,
   by decide, by decide, by decide, by decide⟩

theorem C3_end_date_from_start_witness :
    calculateEndDateFromStart dailyTask (jan2026 12) = .ok (jan2026 12) :=
  C3_end_date_from_start.1 [] 5 dailyTask (jan2026 9) ⟨jan2026 12, jan2026 12⟩
    (by decide)

/-- C4: for every task with rule `biweekly_<day>` and every reference date,
`calculateNextRotationDates` computes `startDate` = the next working day
strictly after the reference date (the first working day after it), and
`endDate` = (the next occurrence of `<day>` strictly after `startDate`) + 7
days; the occurrence is always strictly after `startDate`, so the defensive
extra-week branch (`endDate ≤ startDate`) adds nothing. -/
theorem C4_biweekly_dates (H : List HolidayDto) (F t : Nat) (task : Task)
    (fromDate s : Nat) (ht : t < 7) (hr : task.rotationRule = biweeklyRule t)
    (hfind : findNextWorkingDay H fromDate F = some s) :
    calculateNextRotationDates H F task fromDate
        = some (.ok ⟨s, getNextDayAfterTargetDay s t + 7⟩)
      ∧ fromDate < s ∧ isWorkingDay H s = true
      ∧ (∀ d, fromDate < d → d < s → isWorkingDay H d = false)
      ∧ s < getNextDayAfterTargetDay s t
      ∧ getDay (getNextDayAfterTargetDay s t) = t
      ∧ (∀ d, s < d → d < getNextDayAfterTargetDay s t → getDay d ≠ t) := by
  obtain ⟨h1, h2, h3⟩ := findNextWorkingDay_sound H fromDate F s hfind
  refine ⟨?_, h1, h2, h3, getNextDayAfterTargetDay_gt s t,
    getDay_getNextDayAfterTargetDay s t ht, getNextDayAfterTargetDay_min s t ht⟩
  rw [calculateNextRotationDates_biweekly H F task fromDate t ht hr, hfind]

theorem C4_biweekly_dates_witness :
    calculateNextRotationDates [] 5 ⟨1, "Retro", "biweekly_wednesday"⟩ (jan2026 3)
      = some (.ok ⟨jan2026 5, getNextDayAfterTargetDay (jan2026 5) 3 + 7⟩) :=
  (C4_biweekly_dates [] 5 3 ⟨1, "Retro", "biweekly_wednesday"⟩ (jan2026 3)
    (jan2026 5) (by decide) (by decide) (by decide)).1

/-- C5: for every task whose rotation rule parses and every reference date,
a period returned by `calculateNextRotationDates` satisfies
`startDate ≤ endDate`; consequently every assignment record written by the
rollover orchestrator `updateTaskAssignments` satisfies
`startDate ≤ endDate`. -/
theorem C5_start_le_end :
    (∀ (H : List HolidayDto) (F : Nat) (task : Task) (fromDate : Nat)
        (p : RotationPeriod),
        calculateNextRotationDates H F task fromDate = some (.ok p) →
        p.startDate ≤ p.endDate)
      ∧ (∀ (H : List HolidayDto) (F : Nat) (T : List Task) (M : List Member)
          (assignments ws : List TaskAssignment) (today : Nat)
          (err : Option RotationError),
          updateTaskAssignments H F T M assignments today = some (ws, err) →
          ∀ w ∈ ws, w.startDate ≤ w.endDate) :=
  ⟨fun H F task fromDate p h =>
    calculateNextRotationDates_start_le_end H F task fromDate p h,
   fun H F T M assignments ws today err h =>
    processAssignments_writes_le H F T M today assignments ws err h⟩

theorem C5_start_le_end_witness : jan2026 12 ≤ jan2026 16 :=
  C5_start_le_end.1 [] 5 ⟨3, "Standup", "weekly_friday"⟩ (jan2026 9)
    ⟨jan2026 12, jan2026 16⟩ (by decide)

/-- C6: `rotateMemberList` works on the member list sorted by id ascending
(first conjunct: `sortById` is a permutation of the input whose ids are
sorted), and for a currently assigned id sitting at position `i` of that
sorted list (ids distinct) it returns the id of the member at position
`(i + advanceBy) % count`; in particular for ids `[8, 10, 13, 14]` it wraps
`14 ↦ 8`, and a single-member list rotates to itself. -/
theorem C6_circular_rotation :
    (∀ M : List Member, List.Perm (sortById M) M
        ∧ List.Sorted (· ≤ ·) ((sortById M).map (fun m => m.id)))
      ∧ (∀ (M : List Member) (c adv i : Nat),
          ((sortById M).map (fun m => m.id)).Nodup →
          i < (sortById M).length →
          ((sortById M).getD i defaultMember).id = c →
          rotateMemberList c M adv =
            .ok (((sortById M).getD ((i + adv) % (sortById M).length)
              defaultMember).id))
      ∧ rotateMemberList 14 sampleMembers 1 = .ok 8
      ∧ (∀ m : Member, rotateMemberList m.id [m] 1 = .ok m.id) := by
  refine ⟨fun M => ⟨sortById_perm M, sortById_ids_sorted M⟩, ?_, by decide, ?_⟩
  · intro M c adv i hnd hi hc
    have hmem : c ∈ M.map (fun m => m.id) :=
      (mem_sortById_ids_iff M c).mp
        (List.mem_map.mpr ⟨_, getD_mem_of_lt (sortById M) i hi, hc⟩)
    rw [rotateMemberList_ok_of_mem c M adv hmem,
      findIdx_eq_of_nodup_ids (sortById M) i c hnd hi hc]
  · intro m
    rw [rotateMemberList_ok_of_mem m.id [m] 1 (by simp)]
    simp [sortById, List.insertionSort, List.orderedInsert, List.findIdx_cons]

theorem C6_circular_rotation_witness :
    rotateMemberList 10 sampleMembers 1
      = .ok (((sortById sampleMembers).getD
          ((1 + 1) % (sortById sampleMembers).length) defaultMember).id) :=
  C6_circular_rotation.2.1 sampleMembers 10 1 1 (by decide) (by decide) (by decide)

/-- C7: `rotateMemberList` fails if and only if `currentMemberId` is absent
from the member list — it never silently defaults to some member — and the
error carries the attempted member id together with the id of every available
member (the sorted id list, a permutation of all member ids). -/
theorem C7_error_iff_missing :
    ∀ (c : Nat) (M : List Member) (adv : Nat),
      ((∃ e, rotateMemberList c M adv = .error e) ↔ c ∉ M.map (fun m => m.id))
      ∧ (c ∉ M.map (fun m => m.id) →
          rotateMemberList c M adv
              = .error (.memberNotFound c ((sortById M).map (fun m => m.id)))
            ∧ List.Perm ((sortById M).map (fun m => m.id))
                (M.map (fun m => m.id))) := by
  intro c M adv
  refine ⟨⟨?_, fun hc => ⟨_, rotateMemberList_error_of_not_mem c M adv hc⟩⟩,
    fun hc => ⟨rotateMemberList_error_of_not_mem c M adv hc, sortById_ids_perm M⟩⟩
  rintro ⟨e, he⟩ hc
  rw [rotateMemberList_ok_of_mem c M adv hc] at he
  exact Except.noConfusion he

theorem C7_error_iff_missing_witness :
    rotateMemberList 99 sampleMembers 1
      = .error (.memberNotFound 99 [8, 10, 13, 14]) :=
  (((C7_error_iff_missing 99 sampleMembers 1).2) (by decide)).1

/-- C8: running `updateTaskAssignments` on a day on which every assignment's
end date is on or after today persists nothing: no record is handed to
`updateTaskAssignment` and no error is raised. -/
theorem C8_idempotent_noop (H : List HolidayDto) (F : Nat) (T : List Task)
    (M : List Member) (assignments : List TaskAssignment) (today : Nat)
    (hall : ∀ a ∈ assignments, today ≤ a.endDate) :
    updateTaskAssignments H F T M assignments today = some ([], none) :=
  processAssignments_noop H F T M today assignments hall

theorem C8_idempotent_noop_witness :
    updateTaskAssignments [] 5 [dailyTask] oneMemberStore [currentAssignment]
      (jan2026 5) = some ([], none) :=
  C8_idempotent_noop [] 5 [dailyTask] oneMemberStore [currentAssignment]
    (jan2026 5) (by decide)

/-- C9: every period `calculateNextRotationDates` returns for a
`biweekly_<day>` rule spans between 8 and 14 days inclusive, and the
defensive extra-week branch is unreachable: the computed occurrence of the
target day is always strictly after `startDate`, so the condition
`endDate ≤ startDate` guarding the extra 7 days never holds and no period of
15 or more days is produced. -/
theorem C9_biweekly_span (H : List HolidayDto) (F t : Nat) (task : Task)
    (fromDate : Nat) (p : RotationPeriod) (ht : t < 7)
    (hr : task.rotationRule = biweeklyRule t)
    (h : calculateNextRotationDates H F task fromDate = some (.ok p)) :
    8 ≤ p.endDate - p.startDate ∧ p.endDate - p.startDate ≤ 14
      ∧ ¬ getNextDayAfterTargetDay p.startDate t ≤ p.startDate := by
  rw [calculateNextRotationDates_biweekly H F task fromDate t ht hr] at h
  cases hfind : findNextWorkingDay H fromDate F with
  | none => rw [hfind] at h; exact Option.noConfusion h
  | some s =>
    rw [hfind] at h
    simp only [Option.some.injEq, Except.ok.injEq] at h
    rw [← h]
    dsimp only
    have h1 := getNextDayAfterTargetDay_gt s t
    have h2 := getNextDayAfterTargetDay_le s t
    exact ⟨by omega, by omega, by omega⟩

theorem C9_biweekly_span_witness :
    8 ≤ jan2026 14 - jan2026 5 ∧ jan2026 14 - jan2026 5 ≤ 14
      ∧ ¬ getNextDayAfterTargetDay (jan2026 5) 3 ≤ jan2026 5 :=
  C9_biweekly_span [] 5 3 ⟨1, "Retro", "biweekly_wednesday"⟩ (jan2026 3)
    ⟨jan2026 5, jan2026 14⟩ (by decide) (by decide) (by decide)

/-- C10: the one-day-at-a-time scan of `findNextWorkingDay` terminates
whenever some date strictly after the start is a working day (any fuel at
least the distance suffices); the precondition holds in particular in the
fetch-failure fallback, where the holiday list is empty and a working
weekday occurs within 7 days of any date; and a successful scan returns
exactly the first working day strictly after the start. -/
theorem C10_search_terminates :
    (∀ (H : List HolidayDto) (fromDate k : Nat), 1 ≤ k →
        isWorkingDay H (fromDate + k) = true →
        ∀ fuel, k ≤ fuel → (findNextWorkingDay H fromDate fuel).isSome = true)
      ∧ (∀ fromDate : Nat, ∃ k, 1 ≤ k ∧ k ≤ 7
          ∧ isWorkingDay [] (fromDate + k) = true)
      ∧ (∀ (H : List HolidayDto) (fromDate fuel s : Nat),
          findNextWorkingDay H fromDate fuel = some s →
          fromDate < s ∧ isWorkingDay H s = true
            ∧ ∀ d, fromDate < d → d < s → isWorkingDay H d = false) := by
  refine ⟨fun H fromDate k hk hw => findNextWorkingDay_isSome H fromDate k hk hw,
    ?_, fun H fromDate fuel s h => findNextWorkingDay_sound H fromDate fuel s h⟩
  intro fromDate
  by_cases h : getDay fromDate ≤ 4
  · refine ⟨1, by omega, by omega, (isWorkingDay_nil_iff _).mpr ?_⟩
    simp only [getDay] at h ⊢
    omega
  · refine ⟨8 - getDay fromDate, ?_, ?_, (isWorkingDay_nil_iff _).mpr ?_⟩
    · have : getDay fromDate < 7 := Nat.mod_lt _ (by omega)
      omega
    · omega
    · have h7 : getDay fromDate < 7 := Nat.mod_lt _ (by omega)
      simp only [getDay] at h h7 ⊢
      omega

theorem C10_search_terminates_witness :
    (findNextWorkingDay [] (jan2026 9) 3).isSome = true :=
  C10_search_terminates.1 [] (jan2026 9) 3 (by decide) (by decide) 3 (by decide)

end Rotation
